import Mathlib

/-!
Shallow embedding of the pr-tracker reconciliation engine and sync
orchestrator (src/core.rs, src/sync.rs, src/service.rs, src/models.rs).

Timestamps (`DateTime<Utc>`) are modelled as integers (`Time := Int`),
with the Unix epoch at 0.  The remote API client and the persistence
collaborator are modelled as oracles returning `Except String _`; every
oracle interaction is recorded in an explicit call trace so that claims
about "which operations were performed" are statable.
-/

abbrev Time := Int

/-- `DateTime::UNIX_EPOCH` (models.rs / service.rs). -/
def unixEpoch : Time := 0

/-- `CiStatus` from models.rs. -/
inductive CiStatus where
  | pending
  | success
  | failure
deriving DecidableEq, Repr

/-- `PullRequest` record from models.rs. -/
structure PullRequest where
  number : Int
  title : String
  repository : String
  author : String
  head_sha : String
  draft : Bool
  created_at : Time
  updated_at : Time
  ci_status : CiStatus
  last_comment_at : Time
  last_commit_at : Time
  last_ci_status_update_at : Time
  last_acknowledged_at : Option Time
  requested_reviewers : List String
deriving DecidableEq, Repr

/-- `SyncDiff` from core.rs. -/
structure SyncDiff where
  new_prs : List PullRequest
  updated_prs : List PullRequest
  removed_prs : List PullRequest
deriving DecidableEq, Repr

/-- `pull_request_key` from core.rs: `format!("{}#{}", pr.repository, pr.number)`. -/
def pull_request_key (pr : PullRequest) : String :=
  pr.repository ++ "#" ++ toString pr.number

/-- Lookup behaviour of the `HashMap` built by `index_pull_requests_by_key`
(core.rs): collecting an iterator lets later entries overwrite earlier
ones, so the value found for a key is the LAST pull request of the input
slice with that key. -/
def index_pull_requests_by_key (prs : List PullRequest) (key : String) :
    Option PullRequest :=
  (prs.filter (fun pr => pull_request_key pr = key)).getLast?

/-- Entry set of the `HashMap` built by `index_pull_requests_by_key`: one
entry per distinct key, holding the last pull request of the input with
that key.  The list below is one canonical arrangement of those entries;
the map's real iteration order is an arbitrary permutation of it (the
std `HashMap` randomizes iteration order per instance). -/
def index_entries : List PullRequest → List PullRequest
  | [] => []
  | pr :: rest =>
    if rest.any (fun q => pull_request_key q = pull_request_key pr) then
      index_entries rest
    else
      pr :: index_entries rest

/-- `pull_request_has_relevant_changes` from core.rs.  Returns
`(ci_status_changed, has_relevant_changes)`. -/
def pull_request_has_relevant_changes (existing_pr incoming_pr : PullRequest) :
    Bool × Bool :=
  let ci_status_changed := existing_pr.ci_status ≠ incoming_pr.ci_status
  let last_comment_changed := existing_pr.last_comment_at ≠ incoming_pr.last_comment_at
  let head_sha_changed := existing_pr.head_sha ≠ incoming_pr.head_sha
  (ci_status_changed,
   ci_status_changed || last_comment_changed || head_sha_changed)

/-- `apply_sync_metadata` from core.rs. -/
def apply_sync_metadata (existing_pr incoming_pr : PullRequest)
    (ci_status_changed : Bool) (now : Time) : PullRequest :=
  { incoming_pr with
    last_acknowledged_at := existing_pr.last_acknowledged_at
    last_commit_at :=
      if existing_pr.head_sha ≠ incoming_pr.head_sha then now
      else existing_pr.last_commit_at
    last_ci_status_update_at :=
      if ci_status_changed then now
      else existing_pr.last_ci_status_update_at }

/-- The fresh-record loop of `process_pull_request_sync_results`
(core.rs lines 24-42), producing `(new_prs, updated_prs)` in input
order. -/
def process_fresh (db : List PullRequest) (now : Time) :
    List PullRequest → List PullRequest × List PullRequest
  | [] => ([], [])
  | incoming_pr :: rest =>
    let acc := process_fresh db now rest
    match index_pull_requests_by_key db (pull_request_key incoming_pr) with
    | none => (incoming_pr :: acc.1, acc.2)
    | some existing_pr =>
      let changes := pull_request_has_relevant_changes existing_pr incoming_pr
      if changes.2 then
        (acc.1, apply_sync_metadata existing_pr incoming_pr changes.1 now :: acc.2)
      else
        acc

/-- `collect_removed_pull_requests` from core.rs: the map entries whose
key was not seen among the fresh records, in the map's iteration order
`db_iter`. -/
def collect_removed_pull_requests (db_iter : List PullRequest)
    (seen : List String) : List PullRequest :=
  db_iter.filter (fun pr => pull_request_key pr ∉ seen)

/-- `process_pull_request_sync_results` from core.rs, parametrized by the
iteration order `db_iter` of the prior-record hash map (any permutation
of `index_entries db`). -/
def process_sync_results_iter (db_iter : List PullRequest)
    (db fresh : List PullRequest) (now : Time) : SyncDiff :=
  let acc := process_fresh db now fresh
  { new_prs := acc.1
    updated_prs := acc.2
    removed_prs :=
      collect_removed_pull_requests db_iter (fresh.map pull_request_key) }

/-- `process_pull_request_sync_results` at the canonical iteration
order. -/
def process_pull_request_sync_results (db fresh : List PullRequest)
    (now : Time) : SyncDiff :=
  process_sync_results_iter (index_entries db) db fresh now

/-- The persisted set's invariant: (repository, number) — hence
`pull_request_key` — identifies a record uniquely. -/
def nodupKeys (prs : List PullRequest) : Prop :=
  (prs.map pull_request_key).Nodup

instance (prs : List PullRequest) : Decidable (nodupKeys prs) :=
  List.nodupDecidable (prs.map pull_request_key)

/-! ## Status mapper and detail assembly (service.rs) -/

/-- `CheckRun` from github/schema.rs: `status` is a plain string,
`conclusion` is optional. -/
structure CheckRun where
  status : String
  conclusion : Option String
deriving DecidableEq, Repr

/-- `PullRequestCiStatuses` from github/schema.rs. -/
structure PullRequestCiStatuses where
  head_sha : String
  combined_state : String
  check_runs : List CheckRun
deriving DecidableEq, Repr

/-- The conclusions matched by `has_failing_check_run` (service.rs). -/
def failing_conclusions : List String :=
  ["failure", "timed_out", "cancelled", "startup_failure",
   "action_required", "stale"]

/-- The statuses matched by `has_pending_check_run` (service.rs). -/
def pending_statuses : List String :=
  ["queued", "in_progress", "waiting", "requested", "pending"]

/-- `has_failing_check_run` from service.rs: filter-map every run's
conclusion, then test any against the failing set. -/
def has_failing_check_run (check_runs : List CheckRun) : Bool :=
  (check_runs.filterMap (fun run => run.conclusion)).any
    (fun conclusion => conclusion ∈ failing_conclusions)

/-- `has_pending_check_run` from service.rs. -/
def has_pending_check_run (check_runs : List CheckRun) : Bool :=
  check_runs.any (fun run => run.status ∈ pending_statuses)

/-- `map_ci_status` from service.rs.  The final `match` on the legacy
combined state ("success" => Success, "failure" | "error" => Failure,
_ => Pending) is written as an if-chain. -/
def map_ci_status (ci_statuses : PullRequestCiStatuses) : CiStatus :=
  if has_failing_check_run ci_statuses.check_runs then CiStatus.failure
  else if has_pending_check_run ci_statuses.check_runs then CiStatus.pending
  else if ci_statuses.combined_state = "success" then CiStatus.success
  else if ci_statuses.combined_state = "failure" ∨
          ci_statuses.combined_state = "error" then CiStatus.failure
  else CiStatus.pending

/-- The already-decoded, already-parsed payload of
`github.fetch_pull_request_details` that `fetch_pull_request_details`
(service.rs) consumes.  RFC3339 parsing is abstracted away: timestamps
arrive as `Time`, and a remote/decode/parse failure is an `error` of the
fetch oracle as a whole. -/
structure PRDetailsInput where
  number : Int
  title : String
  author : String
  draft : Bool
  created_at : Time
  updated_at : Time
  issue_comment_times : List Time
  review_comment_times : List Time
  requested_reviewers : List String
deriving DecidableEq, Repr

/-- `latest_comment_time` from service.rs: the maximum over issue and
review comment times, or the Unix epoch when there are none. -/
def latest_comment_time (details : PRDetailsInput) : Time :=
  match (details.issue_comment_times ++ details.review_comment_times).max? with
  | some t => t
  | none => unixEpoch

/-- The record constructor of `fetch_pull_request_details` (service.rs
lines 27-42): note `last_commit_at` and `last_ci_status_update_at`
hard-coded to the Unix epoch and `last_acknowledged_at` to `None`. -/
def fetch_pull_request_details (repo_name : String)
    (details : PRDetailsInput) (ci_statuses : PullRequestCiStatuses) :
    PullRequest :=
  { number := details.number
    title := details.title
    repository := repo_name
    author := details.author
    head_sha := ci_statuses.head_sha
    draft := details.draft
    created_at := details.created_at
    updated_at := details.updated_at
    ci_status := map_ci_status ci_statuses
    last_comment_at := latest_comment_time details
    last_commit_at := unixEpoch
    last_ci_status_update_at := unixEpoch
    last_acknowledged_at := none
    requested_reviewers := details.requested_reviewers }

/-! ## Sync orchestrator (sync.rs), with explicit call traces -/

/-- One oracle interaction of the orchestrator.  `fetchTracked` stands
for the whole remote pipeline of `service::fetch_tracked_pull_requests`
for one repository; `fetchDetails` for
`service::fetch_pull_request_details` on one record; the others are
persistence operations. -/
inductive Call where
  | fetchTracked (repo : String)
  | getPrsByRepo (repo : String)
  | savePr (pr : PullRequest)
  | deletePr (repo : String) (number : Int)
  | fetchDetails (repo : String) (number : Int)
deriving DecidableEq, Repr

/-- Boolean success test for oracle results. -/
def exceptOk {α : Type} : Except String α → Bool
  | Except.ok _ => true
  | Except.error _ => false

/-- `SyncRunSummary` from sync.rs. -/
structure SyncRunSummary where
  synced_repositories : Nat
  new_prs : Nat
  updated_prs : Nat
  deleted_prs : Nat
deriving DecidableEq, Repr

/-- `QuickRefreshSummary` from sync.rs. -/
structure QuickRefreshSummary where
  total_prs : Nat
  refreshed_prs : Nat
  failed_prs : Nat
deriving DecidableEq, Repr

/-- Oracles available to `sync_all_tracked_with_progress`: the remote
fetch pipeline per repository, and the persistence collaborator. -/
structure SyncEnv where
  fetchTracked : String → Except String (List PullRequest)
  getPrsByRepo : String → Except String (List PullRequest)
  savePr : PullRequest → Except String Unit
  deletePr : String → Int → Except String Unit

/-- The `for pr in &new_prs { repository.save_pr(pr).await? }` loops of
sync.rs: save each record in order, abort on the first error.  Returns
the result and the calls attempted. -/
def saveAll (env : SyncEnv) : List PullRequest →
    Except String Unit × List Call
  | [] => (Except.ok (), [])
  | pr :: rest =>
    match env.savePr pr with
    | Except.ok _ =>
      let acc := saveAll env rest
      (acc.1, Call.savePr pr :: acc.2)
    | Except.error e => (Except.error e, [Call.savePr pr])

/-- The `for pr in &removed_prs { repository.delete_pr(..).await? }`
loop of sync.rs. -/
def deleteAll (env : SyncEnv) : List PullRequest →
    Except String Unit × List Call
  | [] => (Except.ok (), [])
  | pr :: rest =>
    match env.deletePr pr.repository pr.number with
    | Except.ok _ =>
      let acc := deleteAll env rest
      (acc.1, Call.deletePr pr.repository pr.number :: acc.2)
    | Except.error e => (Except.error e, [Call.deletePr pr.repository pr.number])

/-- The body of the per-repository loop of
`sync_all_tracked_with_progress` (sync.rs lines 88-126): fetch fresh
records, read the persisted ones, reconcile, persist the diff.  Returns
`(new, updated, deleted)` counts for the repository, and the calls
attempted (every `?` aborts immediately). -/
def syncOneRepo (env : SyncEnv) (repo_name : String) (now : Time) :
    Except String (Nat × Nat × Nat) × List Call :=
  match env.fetchTracked repo_name with
  | Except.error e => (Except.error e, [Call.fetchTracked repo_name])
  | Except.ok fresh_prs =>
    match env.getPrsByRepo repo_name with
    | Except.error e =>
      (Except.error e, [Call.fetchTracked repo_name, Call.getPrsByRepo repo_name])
    | Except.ok existing_prs =>
      let diff := process_pull_request_sync_results existing_prs fresh_prs now
      let base := [Call.fetchTracked repo_name, Call.getPrsByRepo repo_name]
      let s1 := saveAll env diff.new_prs
      match s1.1 with
      | Except.error e => (Except.error e, base ++ s1.2)
      | Except.ok _ =>
        let s2 := saveAll env diff.updated_prs
        match s2.1 with
        | Except.error e => (Except.error e, base ++ s1.2 ++ s2.2)
        | Except.ok _ =>
          let s3 := deleteAll env diff.removed_prs
          match s3.1 with
          | Except.error e => (Except.error e, base ++ s1.2 ++ s2.2 ++ s3.2)
          | Except.ok _ =>
            (Except.ok (diff.new_prs.length, diff.updated_prs.length,
                        diff.removed_prs.length),
             base ++ s1.2 ++ s2.2 ++ s3.2)

/-- The repository loop of `sync_all_tracked_with_progress`: strictly
sequential, any error aborts the run immediately. -/
def syncReposLoop (env : SyncEnv) (now : Time) :
    List String → Except String SyncRunSummary × List Call
  | [] => (Except.ok ⟨0, 0, 0, 0⟩, [])
  | repo_name :: rest =>
    match syncOneRepo env repo_name now with
    | (Except.error e, t) => (Except.error e, t)
    | (Except.ok counts, t) =>
      match syncReposLoop env now rest with
      | (Except.error e, t2) => (Except.error e, t ++ t2)
      | (Except.ok s, t2) =>
        (Except.ok ⟨s.synced_repositories + 1, s.new_prs + counts.1,
                    s.updated_prs + counts.2.1, s.deleted_prs + counts.2.2⟩,
         t ++ t2)

/-- `sync_all_tracked_with_progress` (sync.rs lines 67-129): tracked
repositories and authors are the orchestrator's state inputs; if either
is empty the all-zero default summary is returned before any remote
interaction. -/
def sync_all_tracked_with_progress (env : SyncEnv)
    (repositories tracked_authors : List String) (now : Time) :
    Except String SyncRunSummary × List Call :=
  if repositories.isEmpty || tracked_authors.isEmpty then
    (Except.ok ⟨0, 0, 0, 0⟩, [])
  else
    syncReposLoop env now repositories

/-! ## Quick refresh (sync.rs lines 138-209) -/

/-- Oracles available to `refresh_existing_pull_requests_with_progress`:
the remote detail fetch (returning the decoded, parsed payload that
`fetch_pull_request_details` assembles) and the persistence save. -/
structure RefreshEnv where
  fetchDetails : String → Int →
    Except String (PRDetailsInput × PullRequestCiStatuses)
  savePr : PullRequest → Except String Unit

/-- The success branch of the quick-refresh loop (sync.rs lines
172-179): the freshly assembled record with `last_acknowledged_at`
carried over from the persisted record, and `last_ci_status_update_at`
set to `now` exactly when the re-fetched ci_status differs. -/
def refreshed_record (existing_pr : PullRequest) (details : PRDetailsInput)
    (ci_statuses : PullRequestCiStatuses) (now : Time) : PullRequest :=
  let fetched := fetch_pull_request_details existing_pr.repository
    details ci_statuses
  { fetched with
    last_acknowledged_at := existing_pr.last_acknowledged_at
    last_ci_status_update_at :=
      if existing_pr.ci_status ≠ fetched.ci_status then now
      else existing_pr.last_ci_status_update_at }

/-- The per-record loop of
`refresh_existing_pull_requests_with_progress`: on a successful fetch,
restore `last_acknowledged_at`, recompute `last_ci_status_update_at`,
then `save_pr(..).await?` (a save error aborts via `?`); on a fetch
error, count the failure and continue.  Returns
`(refreshed_count, failed_count)` and the call trace. -/
def refreshLoop (env : RefreshEnv) (now : Time) :
    List PullRequest → Except String (Nat × Nat) × List Call
  | [] => (Except.ok (0, 0), [])
  | existing_pr :: rest =>
    match env.fetchDetails existing_pr.repository existing_pr.number with
    | Except.ok payload =>
      match env.savePr (refreshed_record existing_pr payload.1 payload.2 now) with
      | Except.error e =>
        (Except.error e,
         [Call.fetchDetails existing_pr.repository existing_pr.number,
          Call.savePr (refreshed_record existing_pr payload.1 payload.2 now)])
      | Except.ok _ =>
        match refreshLoop env now rest with
        | (Except.error e, t) =>
          (Except.error e,
           Call.fetchDetails existing_pr.repository existing_pr.number ::
             Call.savePr (refreshed_record existing_pr payload.1 payload.2 now) :: t)
        | (Except.ok counts, t) =>
          (Except.ok (counts.1 + 1, counts.2),
           Call.fetchDetails existing_pr.repository existing_pr.number ::
             Call.savePr (refreshed_record existing_pr payload.1 payload.2 now) :: t)
    | Except.error _ =>
      match refreshLoop env now rest with
      | (Except.error e, t) =>
        (Except.error e,
         Call.fetchDetails existing_pr.repository existing_pr.number :: t)
      | (Except.ok counts, t) =>
        (Except.ok (counts.1, counts.2 + 1),
         Call.fetchDetails existing_pr.repository existing_pr.number :: t)

/-- `refresh_existing_pull_requests_with_progress` (sync.rs): run the
loop over all persisted records and package the summary. -/
def refresh_existing_pull_requests (env : RefreshEnv)
    (existing_prs : List PullRequest) (now : Time) :
    Except String QuickRefreshSummary × List Call :=
  match refreshLoop env now existing_prs with
  | (Except.ok counts, t) =>
    (Except.ok ⟨existing_prs.length, counts.1, counts.2⟩, t)
  | (Except.error e, t) => (Except.error e, t)

/-! ## Helper lemmas -/

theorem refresh_trace_eq (env : RefreshEnv) (db : List PullRequest)
    (now : Time) :
    (refresh_existing_pull_requests env db now).2 =
      (refreshLoop env now db).2 := by
  unfold refresh_existing_pull_requests
  rcases refreshLoop env now db with ⟨res, t⟩
  cases res <;> rfl

theorem refreshLoop_trace_shape (env : RefreshEnv) (now : Time)
    (db : List PullRequest) :
    ∀ c ∈ (refreshLoop env now db).2,
      (∃ pr ∈ db, c = Call.fetchDetails pr.repository pr.number) ∨
      (∃ pr ∈ db, ∃ d ci,
        env.fetchDetails pr.repository pr.number = Except.ok (d, ci) ∧
        c = Call.savePr (refreshed_record pr d ci now)) := by
  induction db with
  | nil => intro c hc; cases hc
  | cons p rest ih =>
    intro c hc
    have lift :
        ((∃ pr ∈ rest, c = Call.fetchDetails pr.repository pr.number) ∨
         (∃ pr ∈ rest, ∃ d ci,
            env.fetchDetails pr.repository pr.number = Except.ok (d, ci) ∧
            c = Call.savePr (refreshed_record pr d ci now))) →
        ((∃ pr ∈ p :: rest, c = Call.fetchDetails pr.repository pr.number) ∨
         (∃ pr ∈ p :: rest, ∃ d ci,
            env.fetchDetails pr.repository pr.number = Except.ok (d, ci) ∧
            c = Call.savePr (refreshed_record pr d ci now))) := by
      rintro (⟨pr, hpr, h⟩ | ⟨pr, hpr, d, ci, h1, h2⟩)
      · exact Or.inl ⟨pr, List.mem_cons_of_mem _ hpr, h⟩
      · exact Or.inr ⟨pr, List.mem_cons_of_mem _ hpr, d, ci, h1, h2⟩
    cases hfetch : env.fetchDetails p.repository p.number with
    | ok payload =>
      have hpay : env.fetchDetails p.repository p.number =
          Except.ok (payload.1, payload.2) := hfetch
      cases hsv : env.savePr (refreshed_record p payload.1 payload.2 now) with
      | error e =>
        simp only [refreshLoop, hfetch, hsv] at hc
        rcases List.mem_cons.mp hc with h | h
        · exact Or.inl ⟨p, List.mem_cons_self _ _, h⟩
        · rcases List.mem_cons.mp h with h2 | h2
          · exact Or.inr
              ⟨p, List.mem_cons_self _ _, payload.1, payload.2, hpay, h2⟩
          · cases h2
      | ok u =>
        rcases hloop : refreshLoop env now rest with ⟨res, t⟩
        have hct : c = Call.fetchDetails p.repository p.number ∨
            c = Call.savePr (refreshed_record p payload.1 payload.2 now) ∨
            c ∈ t := by
          cases res with
          | error e =>
            simp only [refreshLoop, hfetch, hsv, hloop] at hc
            exact (List.mem_cons.mp hc).imp id (fun h => List.mem_cons.mp h)
          | ok counts =>
            simp only [refreshLoop, hfetch, hsv, hloop] at hc
            exact (List.mem_cons.mp hc).imp id (fun h => List.mem_cons.mp h)
        rcases hct with h | h | h
        · exact Or.inl ⟨p, List.mem_cons_self _ _, h⟩
        · exact Or.inr
            ⟨p, List.mem_cons_self _ _, payload.1, payload.2, hpay, h⟩
        · exact lift (ih c (by rw [hloop]; exact h))
    | error e0 =>
      rcases hloop : refreshLoop env now rest with ⟨res, t⟩
      have hct : c = Call.fetchDetails p.repository p.number ∨ c ∈ t := by
        cases res with
        | error e =>
          simp only [refreshLoop, hfetch, hloop] at hc
          exact List.mem_cons.mp hc
        | ok counts =>
          simp only [refreshLoop, hfetch, hloop] at hc
          exact List.mem_cons.mp hc
      rcases hct with h | h
      · exact Or.inl ⟨p, List.mem_cons_self _ _, h⟩
      · exact lift (ih c (by rw [hloop]; exact h))

theorem refreshLoop_saves_ok (env : RefreshEnv) (now : Time)
    (hsave : ∀ q, env.savePr q = Except.ok ())
    (db : List PullRequest) :
    (refreshLoop env now db).1 =
      Except.ok
        (db.countP
          (fun pr => exceptOk (env.fetchDetails pr.repository pr.number)),
         db.countP
          (fun pr => !exceptOk (env.fetchDetails pr.repository pr.number))) ∧
    ∀ pr ∈ db, Call.fetchDetails pr.repository pr.number ∈
      (refreshLoop env now db).2 := by
  induction db with
  | nil => exact ⟨rfl, fun pr hpr => absurd hpr (List.not_mem_nil pr)⟩
  | cons p rest ih =>
    rcases hloop : refreshLoop env now rest with ⟨res, t⟩
    rw [hloop] at ih
    cases hfetch : env.fetchDetails p.repository p.number with
    | ok payload =>
      have hres : res = Except.ok
          (rest.countP
            (fun pr => exceptOk (env.fetchDetails pr.repository pr.number)),
           rest.countP
            (fun pr => !exceptOk (env.fetchDetails pr.repository pr.number))) :=
        ih.1
      subst hres
      constructor
      · simp only [refreshLoop, hfetch,
          hsave (refreshed_record p payload.1 payload.2 now), hloop,
          List.countP_cons]
        simp [exceptOk, hfetch]
      · intro pr hpr
        simp only [refreshLoop, hfetch,
          hsave (refreshed_record p payload.1 payload.2 now), hloop]
        rcases List.mem_cons.mp hpr with h | h
        · subst h
          exact List.mem_cons_self _ _
        · exact List.mem_cons_of_mem _ (List.mem_cons_of_mem _ (ih.2 pr h))
    | error e0 =>
      have hres : res = Except.ok
          (rest.countP
            (fun pr => exceptOk (env.fetchDetails pr.repository pr.number)),
           rest.countP
            (fun pr => !exceptOk (env.fetchDetails pr.repository pr.number))) :=
        ih.1
      subst hres
      constructor
      · simp only [refreshLoop, hfetch, hloop, List.countP_cons]
        simp [exceptOk, hfetch]
      · intro pr hpr
        simp only [refreshLoop, hfetch, hloop]
        rcases List.mem_cons.mp hpr with h | h
        · subst h
          exact List.mem_cons_self _ _
        · exact List.mem_cons_of_mem _ (ih.2 pr h)

theorem refreshLoop_save_mem (env : RefreshEnv) (now : Time)
    (hsave : ∀ q, env.savePr q = Except.ok ())
    (db : List PullRequest) :
    ∀ pr ∈ db, ∀ d ci,
      env.fetchDetails pr.repository pr.number = Except.ok (d, ci) →
      Call.savePr (refreshed_record pr d ci now) ∈
        (refreshLoop env now db).2 := by
  induction db with
  | nil => intro pr hpr; cases hpr
  | cons p rest ih =>
    intro pr hpr d ci hfetchpr
    rcases hloop : refreshLoop env now rest with ⟨res, t⟩
    rw [hloop] at ih
    rcases List.mem_cons.mp hpr with h | h
    · subst h
      simp only [refreshLoop, hfetchpr,
        hsave (refreshed_record pr d ci now), hloop]
      cases res <;>
        exact List.mem_cons_of_mem _ (List.mem_cons_self _ _)
    · have hmem := ih pr h d ci hfetchpr
      cases hfetch : env.fetchDetails p.repository p.number with
      | ok payload =>
        simp only [refreshLoop, hfetch,
          hsave (refreshed_record p payload.1 payload.2 now), hloop]
        cases res <;>
          exact List.mem_cons_of_mem _ (List.mem_cons_of_mem _ hmem)
      | error e0 =>
        simp only [refreshLoop, hfetch, hloop]
        cases res <;> exact List.mem_cons_of_mem _ hmem

theorem filter_key_eq_single (db : List PullRequest) (p : PullRequest)
    (hnd : nodupKeys db) (hp : p ∈ db) :
    db.filter (fun pr => pull_request_key pr = pull_request_key p) = [p] := by
  induction db with
  | nil => cases hp
  | cons q rest ih =>
    have hnd' : ¬ (∃ x ∈ rest, pull_request_key x = pull_request_key q) ∧
        nodupKeys rest := by
      simpa [nodupKeys, List.nodup_cons, List.mem_map, eq_comm] using hnd
    rcases List.mem_cons.mp hp with hq | hrest
    · subst hq
      have hnil :
          rest.filter (fun pr => pull_request_key pr = pull_request_key p) = [] := by
        refine List.filter_eq_nil_iff.mpr ?_
        intro a ha
        simp only [decide_eq_true_eq]
        intro heq
        exact hnd'.1 ⟨a, ha, heq⟩
      simp [List.filter_cons, hnil]
    · have hne : pull_request_key q ≠ pull_request_key p := by
        intro heq
        exact hnd'.1 ⟨p, hrest, heq.symm⟩
      rw [List.filter_cons]
      simp only [hne, decide_False, if_false, decide_eq_true_eq, ite_false]
      exact ih hnd'.2 hrest

theorem index_lookup_self (db : List PullRequest) (p : PullRequest)
    (hnd : nodupKeys db) (hp : p ∈ db) :
    index_pull_requests_by_key db (pull_request_key p) = some p := by
  unfold index_pull_requests_by_key
  rw [filter_key_eq_single db p hnd hp]
  rfl

theorem index_lookup_none (db : List PullRequest) (key : String)
    (h : ∀ q ∈ db, pull_request_key q ≠ key) :
    index_pull_requests_by_key db key = none := by
  unfold index_pull_requests_by_key
  have : db.filter (fun pr => pull_request_key pr = key) = [] := by
    refine List.filter_eq_nil_iff.mpr ?_
    intro a ha
    simp only [decide_eq_true_eq]
    exact h a ha
  rw [this]
  rfl

theorem mem_new_of_lookup_none (db : List PullRequest) (now : Time)
    (fresh : List PullRequest) (f : PullRequest) (hf : f ∈ fresh)
    (hnone : index_pull_requests_by_key db (pull_request_key f) = none) :
    f ∈ (process_fresh db now fresh).1 := by
  induction fresh with
  | nil => cases hf
  | cons g rest ih =>
    rcases List.mem_cons.mp hf with heq | hrest
    · subst heq
      simp only [process_fresh, hnone]
      exact List.mem_cons_self _ _
    · have ihm := ih hrest
      simp only [process_fresh]
      cases hmatch : index_pull_requests_by_key db (pull_request_key g) with
      | none => exact List.mem_cons_of_mem _ ihm
      | some existing_pr =>
        by_cases hrel : (pull_request_has_relevant_changes existing_pr g).2 = true
        · simp [hrel]
          exact ihm
        · simp [hrel]
          exact ihm

theorem mem_updated_of_lookup (db : List PullRequest) (now : Time)
    (fresh : List PullRequest) (f p : PullRequest) (hf : f ∈ fresh)
    (hsome : index_pull_requests_by_key db (pull_request_key f) = some p)
    (hrel : (pull_request_has_relevant_changes p f).2 = true) :
    apply_sync_metadata p f (pull_request_has_relevant_changes p f).1 now
      ∈ (process_fresh db now fresh).2 := by
  induction fresh with
  | nil => cases hf
  | cons g rest ih =>
    rcases List.mem_cons.mp hf with heq | hrest
    · subst heq
      simp only [process_fresh, hsome, hrel, if_true]
      exact List.mem_cons_self _ _
    · have ihm := ih hrest
      simp only [process_fresh]
      cases hmatch : index_pull_requests_by_key db (pull_request_key g) with
      | none => exact ihm
      | some existing_pr =>
        by_cases hrel2 : (pull_request_has_relevant_changes existing_pr g).2 = true
        · simp only [hrel2, if_true]
          exact List.mem_cons_of_mem _ ihm
        · simp only [hrel2, if_false]
          exact ihm

theorem new_prs_shape (db : List PullRequest) (now : Time)
    (fresh : List PullRequest) (r : PullRequest)
    (hr : r ∈ (process_fresh db now fresh).1) :
    r ∈ fresh ∧ index_pull_requests_by_key db (pull_request_key r) = none := by
  induction fresh with
  | nil => cases hr
  | cons g rest ih =>
    simp only [process_fresh] at hr
    cases hmatch : index_pull_requests_by_key db (pull_request_key g) with
    | none =>
      rw [hmatch] at hr
      rcases List.mem_cons.mp hr with heq | htail
      · subst heq
        exact ⟨List.mem_cons_self _ _, hmatch⟩
      · have := ih htail
        exact ⟨List.mem_cons_of_mem _ this.1, this.2⟩
    | some existing_pr =>
      rw [hmatch] at hr
      by_cases hrel : (pull_request_has_relevant_changes existing_pr g).2 = true
      · simp only [hrel, if_true] at hr
        have := ih hr
        exact ⟨List.mem_cons_of_mem _ this.1, this.2⟩
      · simp only [hrel, if_false] at hr
        have := ih hr
        exact ⟨List.mem_cons_of_mem _ this.1, this.2⟩

theorem updated_prs_shape (db : List PullRequest) (now : Time)
    (fresh : List PullRequest) (r : PullRequest)
    (hr : r ∈ (process_fresh db now fresh).2) :
    ∃ f ∈ fresh, ∃ p,
      index_pull_requests_by_key db (pull_request_key f) = some p ∧
      (pull_request_has_relevant_changes p f).2 = true ∧
      r = apply_sync_metadata p f (pull_request_has_relevant_changes p f).1 now := by
  induction fresh with
  | nil => cases hr
  | cons g rest ih =>
    simp only [process_fresh] at hr
    cases hmatch : index_pull_requests_by_key db (pull_request_key g) with
    | none =>
      rw [hmatch] at hr
      rcases ih hr with ⟨f, hf, rest_shape⟩
      exact ⟨f, List.mem_cons_of_mem _ hf, rest_shape⟩
    | some existing_pr =>
      rw [hmatch] at hr
      by_cases hrel : (pull_request_has_relevant_changes existing_pr g).2 = true
      · simp only [hrel, if_true] at hr
        rcases List.mem_cons.mp hr with heq | htail
        · exact ⟨g, List.mem_cons_self _ _, existing_pr, hmatch, hrel, heq⟩
        · rcases ih htail with ⟨f, hf, rest_shape⟩
          exact ⟨f, List.mem_cons_of_mem _ hf, rest_shape⟩
      · simp only [hrel, if_false] at hr
        rcases ih hr with ⟨f, hf, rest_shape⟩
        exact ⟨f, List.mem_cons_of_mem _ hf, rest_shape⟩

theorem key_apply_sync_metadata (existing_pr incoming_pr : PullRequest)
    (ci_status_changed : Bool) (now : Time) :
    pull_request_key
        (apply_sync_metadata existing_pr incoming_pr ci_status_changed now) =
      pull_request_key incoming_pr := rfl

theorem index_entries_of_nodup (db : List PullRequest) (hnd : nodupKeys db) :
    index_entries db = db := by
  induction db with
  | nil => rfl
  | cons q rest ih =>
    have hnd' : (¬ ∃ x ∈ rest, pull_request_key x = pull_request_key q) ∧
        nodupKeys rest := by
      simpa [nodupKeys, List.nodup_cons, List.mem_map, eq_comm] using hnd
    have hany : rest.any (fun x => pull_request_key x = pull_request_key q) = false := by
      rw [List.any_eq_false]
      intro x hx
      simp only [decide_eq_true_eq]
      intro heq
      exact hnd'.1 ⟨x, hx, heq⟩
    simp [index_entries, hany, ih hnd'.2]

theorem mem_of_mem_index_entries (db : List PullRequest) (r : PullRequest)
    (hr : r ∈ index_entries db) : r ∈ db := by
  induction db with
  | nil => cases hr
  | cons q rest ih =>
    simp only [index_entries] at hr
    by_cases hany :
        rest.any (fun x => pull_request_key x = pull_request_key q) = true
    · simp only [hany, if_true] at hr
      exact List.mem_cons_of_mem _ (ih hr)
    · simp only [hany, if_false] at hr
      rcases List.mem_cons.mp hr with heq | htail
      · exact heq ▸ List.mem_cons_self _ _
      · exact List.mem_cons_of_mem _ (ih htail)

theorem mem_collect_removed (db_iter : List PullRequest) (seen : List String)
    (r : PullRequest) :
    r ∈ collect_removed_pull_requests db_iter seen ↔
      r ∈ db_iter ∧ pull_request_key r ∉ seen := by
  unfold collect_removed_pull_requests
  simp [List.mem_filter]

theorem has_failing_iff (check_runs : List CheckRun) :
    has_failing_check_run check_runs = true ↔
      ∃ run ∈ check_runs, ∃ c ∈ failing_conclusions,
        run.conclusion = some c := by
  simp only [has_failing_check_run, List.any_eq_true, List.mem_filterMap,
    decide_eq_true_eq]
  constructor
  · rintro ⟨c, ⟨run, hrun, hc⟩, hmem⟩
    exact ⟨run, hrun, c, hmem, hc⟩
  · rintro ⟨run, hrun, c, hcmem, hc⟩
    exact ⟨c, ⟨run, hrun, hc⟩, hcmem⟩

theorem has_pending_iff (check_runs : List CheckRun) :
    has_pending_check_run check_runs = true ↔
      ∃ run ∈ check_runs, run.status ∈ pending_statuses := by
  simp [has_pending_check_run, List.any_eq_true]

/-! ## Concrete fixtures used by witnesses and counterexamples -/

def basePR : PullRequest :=
  { number := 1, title := "", repository := "org/repo", author := "",
    head_sha := "", draft := false, created_at := 0, updated_at := 0,
    ci_status := CiStatus.pending, last_comment_at := 0, last_commit_at := 0,
    last_ci_status_update_at := 0, last_acknowledged_at := none,
    requested_reviewers := [] }

def prA : PullRequest := basePR

def prB : PullRequest := { basePR with number := 2 }

/-- Prior record with `ci_status = Pending` and a user-set
acknowledgement, as in spec Scenario B. -/
def prPend : PullRequest := { basePR with last_acknowledged_at := some 3 }

/-- Fresh record for the same key with `ci_status = Success`. -/
def prSucc : PullRequest := { basePR with ci_status := CiStatus.success }

/-! ## Claims about the record reconciler -/

/-- C1: for every key present in both the prior and the fresh set where
at least one of ci_status, last_comment_at, head-commit identity
differs, the reconciler emits into `updated` a record equal to the
fresh one except that `last_acknowledged_at` is copied from the prior
record, `last_ci_status_update_at` is `now` exactly when ci_status
differs (else the prior value), and `last_commit_at` is `now` exactly
when the head commit differs (else the prior value). -/
theorem C1_updated_record_metadata (db fresh : List PullRequest)
    (now : Time) (p f : PullRequest) (hdb : nodupKeys db)
    (hp : p ∈ db) (hf : f ∈ fresh)
    (hkey : pull_request_key p = pull_request_key f)
    (hdiff : p.ci_status ≠ f.ci_status ∨ p.last_comment_at ≠ f.last_comment_at ∨
      p.head_sha ≠ f.head_sha) :
    ({ f with
        last_acknowledged_at := p.last_acknowledged_at
        last_ci_status_update_at :=
          if p.ci_status ≠ f.ci_status then now else p.last_ci_status_update_at
        last_commit_at :=
          if p.head_sha ≠ f.head_sha then now else p.last_commit_at } :
      PullRequest) ∈
      (process_pull_request_sync_results db fresh now).updated_prs := by
  have hlookup : index_pull_requests_by_key db (pull_request_key f) = some p := by
    rw [← hkey]
    exact index_lookup_self db p hdb hp
  have hrel : (pull_request_has_relevant_changes p f).2 = true := by
    simp only [pull_request_has_relevant_changes, Bool.or_eq_true,
      decide_eq_true_eq]
    tauto
  have hmem := mem_updated_of_lookup db now fresh f p hf hlookup hrel
  have hrec :
      apply_sync_metadata p f (pull_request_has_relevant_changes p f).1 now =
      { f with
        last_acknowledged_at := p.last_acknowledged_at
        last_ci_status_update_at :=
          if p.ci_status ≠ f.ci_status then now else p.last_ci_status_update_at
        last_commit_at :=
          if p.head_sha ≠ f.head_sha then now else p.last_commit_at } := by
    by_cases hci : p.ci_status = f.ci_status <;>
      simp [apply_sync_metadata, pull_request_has_relevant_changes, hci]
  exact hrec ▸ hmem

/-- Witness for C1, matching spec Scenario B: prior `ci=Pending,
ack=some 3`, fresh `ci=Success`, `now = 9`. -/
theorem C1_witness :
    ({ prSucc with
        last_acknowledged_at := prPend.last_acknowledged_at
        last_ci_status_update_at :=
          if prPend.ci_status ≠ prSucc.ci_status then 9
          else prPend.last_ci_status_update_at
        last_commit_at :=
          if prPend.head_sha ≠ prSucc.head_sha then 9
          else prPend.last_commit_at } : PullRequest) ∈
      (process_pull_request_sync_results [prPend] [prSucc] 9).updated_prs :=
  C1_updated_record_metadata [prPend] [prSucc] 9 prPend prSucc
    (by decide) (by decide) (by decide) (by decide) (by decide)

/-- C3: a fresh record whose key has no prior match appears verbatim in
`new`; a prior record whose key occurs in no fresh record appears
verbatim in `removed`. -/
theorem C3_new_and_removed_verbatim (db fresh : List PullRequest)
    (now : Time) :
    (∀ f ∈ fresh, (∀ p ∈ db, pull_request_key p ≠ pull_request_key f) →
      f ∈ (process_pull_request_sync_results db fresh now).new_prs) ∧
    (nodupKeys db →
      ∀ p ∈ db, (∀ f ∈ fresh, pull_request_key f ≠ pull_request_key p) →
      p ∈ (process_pull_request_sync_results db fresh now).removed_prs) := by
  constructor
  · intro f hf hnomatch
    exact mem_new_of_lookup_none db now fresh f hf
      (index_lookup_none db (pull_request_key f) hnomatch)
  · intro hnd p hp hnofresh
    simp only [process_pull_request_sync_results, process_sync_results_iter]
    rw [mem_collect_removed]
    refine ⟨?_, ?_⟩
    · rw [index_entries_of_nodup db hnd]
      exact hp
    · intro hmem
      rcases List.mem_map.mp hmem with ⟨f, hf, heq⟩
      exact hnofresh f hf heq

/-- Witness for C3: fresh `prB` is new against prior `[prA]`, and prior
`prA` is removed against fresh `[prB]` (distinct keys). -/
theorem C3_witness :
    prB ∈ (process_pull_request_sync_results [prA] [prB] 9).new_prs ∧
    prA ∈ (process_pull_request_sync_results [prA] [prB] 9).removed_prs :=
  ⟨(C3_new_and_removed_verbatim [prA] [prB] 9).1 prB (by decide) (by decide),
   (C3_new_and_removed_verbatim [prA] [prB] 9).2 (by decide) prA (by decide)
     (by decide)⟩

/-- C4: a key present in both sets whose prior and fresh records agree
on ci_status, last_comment_at and head-commit identity appears in none
of `new`, `updated`, `removed`. -/
theorem C4_unchanged_emits_nothing (db fresh : List PullRequest)
    (now : Time) (p f : PullRequest)
    (hdb : nodupKeys db) (hfr : nodupKeys fresh)
    (hp : p ∈ db) (hf : f ∈ fresh)
    (hkey : pull_request_key p = pull_request_key f)
    (hci : p.ci_status = f.ci_status)
    (hcomment : p.last_comment_at = f.last_comment_at)
    (hsha : p.head_sha = f.head_sha) :
    (∀ r ∈ (process_pull_request_sync_results db fresh now).new_prs,
      pull_request_key r ≠ pull_request_key f) ∧
    (∀ r ∈ (process_pull_request_sync_results db fresh now).updated_prs,
      pull_request_key r ≠ pull_request_key f) ∧
    (∀ r ∈ (process_pull_request_sync_results db fresh now).removed_prs,
      pull_request_key r ≠ pull_request_key f) := by
  have hlookup : index_pull_requests_by_key db (pull_request_key f) = some p := by
    rw [← hkey]
    exact index_lookup_self db p hdb hp
  have hnorel : (pull_request_has_relevant_changes p f).2 = false := by
    simp [pull_request_has_relevant_changes, hci, hcomment, hsha]
  refine ⟨?_, ?_, ?_⟩
  · intro r hr hkr
    have hshape := new_prs_shape db now fresh r hr
    rw [hkr, hlookup] at hshape
    exact Option.noConfusion hshape.2
  · intro r hr hkr
    rcases updated_prs_shape db now fresh r hr with
      ⟨f2, hf2, p2, hlookup2, hrel2, hr_eq⟩
    have hkf2 : pull_request_key f2 = pull_request_key f := by
      rw [← hkr, hr_eq, key_apply_sync_metadata]
    have hf2f : f2 = f :=
      List.inj_on_of_nodup_map hfr hf2 hf hkf2
    subst hf2f
    rw [hlookup2] at hlookup
    have hp2 : p2 = p := Option.some.inj hlookup
    subst hp2
    rw [hrel2] at hnorel
    exact Bool.noConfusion hnorel
  · intro r hr hkr
    simp only [process_pull_request_sync_results, process_sync_results_iter] at hr
    have hshape := (mem_collect_removed _ _ r).mp hr
    exact hshape.2 (hkr ▸ List.mem_map_of_mem pull_request_key hf)

/-- C9 counterexample: the prior index is a std `HashMap`, whose
iteration order is randomized per instance; both `[prA, prB]` and
`[prB, prA]` are admissible iteration orders of the index built from
`[prA, prB]`, yet they yield `removed` partitions that differ in
element order — so two runs on identical inputs need not agree on
element order. -/
theorem C9_counterexample :
    index_entries [prA, prB] = [prA, prB] ∧
    List.Perm [prB, prA] (index_entries [prA, prB]) ∧
    process_sync_results_iter [prA, prB] [prA, prB] [] 0 ≠
      process_sync_results_iter [prB, prA] [prA, prB] [] 0 := by
  decide

/-- C9 amended: the reconciler is deterministic and idempotent up to
the ordering of `removed`: for any two admissible iteration orders of
the prior index, the `new` and `updated` partitions are identical
(element order included) and the `removed` partitions are permutations
of each other — the partitions are determined by the inputs as sets,
with no other hidden state. -/
theorem C9_deterministic_up_to_removed_order (db fresh : List PullRequest)
    (now : Time) (o1 o2 : List PullRequest)
    (h1 : o1.Perm (index_entries db)) (h2 : o2.Perm (index_entries db)) :
    (process_sync_results_iter o1 db fresh now).new_prs =
      (process_sync_results_iter o2 db fresh now).new_prs ∧
    (process_sync_results_iter o1 db fresh now).updated_prs =
      (process_sync_results_iter o2 db fresh now).updated_prs ∧
    (process_sync_results_iter o1 db fresh now).removed_prs.Perm
      (process_sync_results_iter o2 db fresh now).removed_prs := by
  refine ⟨rfl, rfl, ?_⟩
  simp only [process_sync_results_iter, collect_removed_pull_requests]
  exact (h1.trans h2.symm).filter _

/-- Witness for C9's amended statement at two concrete iteration
orders. -/
theorem C9_witness :
    (process_sync_results_iter [prB, prA] [prA, prB] [] 0).new_prs =
      (process_sync_results_iter [prA, prB] [prA, prB] [] 0).new_prs ∧
    (process_sync_results_iter [prB, prA] [prA, prB] [] 0).updated_prs =
      (process_sync_results_iter [prA, prB] [prA, prB] [] 0).updated_prs ∧
    (process_sync_results_iter [prB, prA] [prA, prB] [] 0).removed_prs.Perm
      (process_sync_results_iter [prA, prB] [prA, prB] [] 0).removed_prs :=
  C9_deterministic_up_to_removed_order [prA, prB] [] 0 [prB, prA] [prA, prB]
    (by decide) (by decide)

/-- Scenario D from the spec: one in-progress check run over a
successful legacy combined state. -/
def scenarioD : PullRequestCiStatuses :=
  { head_sha := "sha", combined_state := "success",
    check_runs := [{ status := "in_progress", conclusion := none }] }

/-- C5: the status mapper is total over (check runs, combined legacy
status); a failing check-run conclusion forces Failure, otherwise a
pending check-run status forces Pending, otherwise the legacy combined
state is mapped ("success" to Success, "failure"/"error" to Failure,
anything else to Pending). -/
theorem C5_status_mapper_precedence (ci : PullRequestCiStatuses) :
    ((∃ run ∈ ci.check_runs, ∃ c ∈ failing_conclusions,
        run.conclusion = some c) →
      map_ci_status ci = CiStatus.failure) ∧
    ((¬ ∃ run ∈ ci.check_runs, ∃ c ∈ failing_conclusions,
        run.conclusion = some c) →
      (∃ run ∈ ci.check_runs, run.status ∈ pending_statuses) →
      map_ci_status ci = CiStatus.pending) ∧
    ((¬ ∃ run ∈ ci.check_runs, ∃ c ∈ failing_conclusions,
        run.conclusion = some c) →
      (¬ ∃ run ∈ ci.check_runs, run.status ∈ pending_statuses) →
      map_ci_status ci =
        (if ci.combined_state = "success" then CiStatus.success
         else if ci.combined_state = "failure" ∨ ci.combined_state = "error"
         then CiStatus.failure
         else CiStatus.pending)) := by
  refine ⟨?_, ?_, ?_⟩
  · intro h
    have hb : has_failing_check_run ci.check_runs = true :=
      (has_failing_iff _).mpr h
    simp [map_ci_status, hb]
  · intro h1 h2
    have hb1 : has_failing_check_run ci.check_runs = false := by
      rw [Bool.eq_false_iff]
      intro ht
      exact h1 ((has_failing_iff _).mp ht)
    have hb2 : has_pending_check_run ci.check_runs = true :=
      (has_pending_iff _).mpr h2
    simp [map_ci_status, hb1, hb2]
  · intro h1 h2
    have hb1 : has_failing_check_run ci.check_runs = false := by
      rw [Bool.eq_false_iff]
      intro ht
      exact h1 ((has_failing_iff _).mp ht)
    have hb2 : has_pending_check_run ci.check_runs = false := by
      rw [Bool.eq_false_iff]
      intro ht
      exact h2 ((has_pending_iff _).mp ht)
    simp [map_ci_status, hb1, hb2]

/-- Witness for C5, spec Scenario D: an in-progress check run overrides
the successful legacy state. -/
theorem C5_witness : map_ci_status scenarioD = CiStatus.pending :=
  (C5_status_mapper_precedence scenarioD).2.1 (by decide) (by decide)

/-- A sync environment whose every oracle succeeds trivially. -/
def trivialEnv : SyncEnv :=
  { fetchTracked := fun _ => Except.ok []
    getPrsByRepo := fun _ => Except.ok []
    savePr := fun _ => Except.ok ()
    deletePr := fun _ _ => Except.ok () }

/-- A sync environment whose remote fetch fails for repository "b". -/
def failEnvB : SyncEnv :=
  { trivialEnv with
    fetchTracked := fun repo =>
      if repo = "b" then Except.error "boom" else Except.ok [] }

/-- C6: with an empty tracked-repository set or an empty tracked-author
set, full sync returns the all-zero summary and performs no oracle
interaction at all — in particular no remote call. -/
theorem C6_empty_scope_guard (env : SyncEnv)
    (repositories tracked_authors : List String) (now : Time)
    (h : repositories = [] ∨ tracked_authors = []) :
    sync_all_tracked_with_progress env repositories tracked_authors now =
      (Except.ok ⟨0, 0, 0, 0⟩, []) := by
  unfold sync_all_tracked_with_progress
  rcases h with h | h <;> subst h <;> simp

/-- Witness for C6 with an empty tracked-repository set. -/
theorem C6_witness :
    sync_all_tracked_with_progress trivialEnv [] ["alice"] 0 =
      (Except.ok ⟨0, 0, 0, 0⟩, []) :=
  C6_empty_scope_guard trivialEnv [] ["alice"] 0 (Or.inl rfl)

theorem syncReposLoop_fail_fast (env : SyncEnv) (now : Time)
    (pre post : List String) (r : String) (e : String)
    (hpre : ∀ repo ∈ pre, exceptOk (syncOneRepo env repo now).1 = true)
    (hr : (syncOneRepo env r now).1 = Except.error e) :
    (syncReposLoop env now (pre ++ r :: post)).1 = Except.error e ∧
    (syncReposLoop env now (pre ++ r :: post)).2 =
      (pre.map (fun repo => (syncOneRepo env repo now).2)).flatten ++
        (syncOneRepo env r now).2 := by
  induction pre with
  | nil =>
    rcases hsr : syncOneRepo env r now with ⟨res, t⟩
    cases res with
    | ok c =>
      rw [hsr] at hr
      exact absurd hr (by simp)
    | error e2 =>
      have he2 : e2 = e := by
        rw [hsr] at hr
        exact Except.error.inj hr
      subst he2
      simp [syncReposLoop, hsr]
  | cons q rest ih =>
    have hq := hpre q (List.mem_cons_self _ _)
    rcases hsq : syncOneRepo env q now with ⟨resq, tq⟩
    cases resq with
    | error e2 =>
      rw [hsq] at hq
      simp [exceptOk] at hq
    | ok c =>
      have ih2 := ih (fun repo hrepo => hpre repo (List.mem_cons_of_mem _ hrepo))
      rcases hloop : syncReposLoop env now (rest ++ r :: post) with ⟨resl, tl⟩
      rw [hloop] at ih2
      have h1 : resl = Except.error e := ih2.1
      subst h1
      have htl : tl =
          (rest.map (fun repo => (syncOneRepo env repo now).2)).flatten ++
            (syncOneRepo env r now).2 := ih2.2
      constructor
      · simp [List.cons_append, syncReposLoop, List.append_eq, hsq, hloop]
      · simp only [List.cons_append, syncReposLoop, List.append_eq, hsq, hloop,
          List.map_cons, List.flatten_cons]
        rw [htl, List.append_assoc]

/-- C7: full sync is fail-fast — if every repository before `r`
succeeds and processing `r` fails with error `e`, the whole run returns
`Except.error e` (no summary) and the call trace consists exactly of
the calls of the successful prefix and of `r`: no fetch, reconciliation
or storage operation happens for any repository after `r`. -/
theorem C7_full_sync_fail_fast (env : SyncEnv) (now : Time)
    (tracked_authors pre post : List String) (r : String) (e : String)
    (hauthors : tracked_authors ≠ [])
    (hpre : ∀ repo ∈ pre, exceptOk (syncOneRepo env repo now).1 = true)
    (hr : (syncOneRepo env r now).1 = Except.error e) :
    (sync_all_tracked_with_progress env (pre ++ r :: post)
        tracked_authors now).1 = Except.error e ∧
    (sync_all_tracked_with_progress env (pre ++ r :: post)
        tracked_authors now).2 =
      (pre.map (fun repo => (syncOneRepo env repo now).2)).flatten ++
        (syncOneRepo env r now).2 := by
  have hrepos : (pre ++ r :: post).isEmpty = false := by
    cases pre <;> rfl
  have hauth : tracked_authors.isEmpty = false := by
    cases tracked_authors with
    | nil => exact absurd rfl hauthors
    | cons a l => rfl
  unfold sync_all_tracked_with_progress
  rw [hrepos, hauth]
  simp only [Bool.or_false, Bool.false_or, if_false, ite_false,
    Bool.false_eq_true]
  exact syncReposLoop_fail_fast env now pre post r e hpre hr

/-- Witness for C7: repository "a" succeeds, "b" fails remotely, "c" is
never touched. -/
theorem C7_witness :
    (sync_all_tracked_with_progress failEnvB (["a"] ++ "b" :: ["c"])
        ["alice"] 0).1 = Except.error "boom" ∧
    (sync_all_tracked_with_progress failEnvB (["a"] ++ "b" :: ["c"])
        ["alice"] 0).2 =
      (["a"].map (fun repo => (syncOneRepo failEnvB repo 0).2)).flatten ++
        (syncOneRepo failEnvB "b" 0).2 :=
  C7_full_sync_fail_fast failEnvB 0 ["alice"] ["a"] ["c"] "b" "boom"
    (by decide) (by decide) rfl

/-- A concrete decoded detail payload for pull request number 1. -/
def detailsA : PRDetailsInput :=
  { number := 1, title := "", author := "", draft := false, created_at := 0,
    updated_at := 0, issue_comment_times := [], review_comment_times := [],
    requested_reviewers := [] }

/-- A concrete CI payload with no check runs and a blank combined
state. -/
def ciEmpty : PullRequestCiStatuses :=
  { head_sha := "", combined_state := "", check_runs := [] }

/-- Refresh environment whose fetch always succeeds but whose save
always fails. -/
def saveFailEnv : RefreshEnv :=
  { fetchDetails := fun _ _ => Except.ok (detailsA, ciEmpty)
    savePr := fun _ => Except.error "db full" }

/-- Refresh environment whose fetch fails exactly for pull request
number 2 and whose save always succeeds. -/
def mixedEnv : RefreshEnv :=
  { fetchDetails := fun _ number =>
      if number = 2 then Except.error "gone" else Except.ok (detailsA, ciEmpty)
    savePr := fun _ => Except.ok () }

/-- Refresh environment whose every oracle succeeds. -/
def okEnv : RefreshEnv :=
  { fetchDetails := fun _ _ => Except.ok (detailsA, ciEmpty)
    savePr := fun _ => Except.ok () }

/-- C2 counterexample: while quick-refreshing record `prA`, the
re-fetch succeeds and the subsequent persistence (`save_pr`) fails; the
run aborts with that error — no summary, hence no failed count — and
the remaining record `prB` is never processed (its detail fetch never
happens).  So a failure "while processing one record" (here a
persistence failure) does abort the batch, contradicting the claim. -/
theorem C2_counterexample :
    (refresh_existing_pull_requests saveFailEnv [prA, prB] 0).1 =
      Except.error "db full" ∧
    Call.fetchDetails prB.repository prB.number ∉
      (refresh_existing_pull_requests saveFailEnv [prA, prB] 0).2 :=
  ⟨rfl, by decide⟩

/-- C2 amended: only a RE-FETCH failure is isolated — provided every
persistence save succeeds, the run completes with a summary whose
failed count is the number of records whose re-fetch failed, whose
refreshed count is the number of records whose re-fetch succeeded, and
every record's re-fetch is attempted (a persistence failure, by
contrast, aborts the run, as the counterexample shows). -/
theorem C2_fetch_failures_isolated (env : RefreshEnv) (now : Time)
    (db : List PullRequest)
    (hsave : ∀ q, env.savePr q = Except.ok ()) :
    (refresh_existing_pull_requests env db now).1 =
      Except.ok
        ⟨db.length,
         db.countP
          (fun pr => exceptOk (env.fetchDetails pr.repository pr.number)),
         db.countP
          (fun pr => !exceptOk (env.fetchDetails pr.repository pr.number))⟩ ∧
    ∀ pr ∈ db, Call.fetchDetails pr.repository pr.number ∈
      (refresh_existing_pull_requests env db now).2 := by
  have h := refreshLoop_saves_ok env now hsave db
  constructor
  · unfold refresh_existing_pull_requests
    rcases hloop : refreshLoop env now db with ⟨res, t⟩
    rw [hloop] at h
    obtain ⟨h1, -⟩ := h
    cases res with
    | ok counts =>
      have hcounts : counts =
          (db.countP
            (fun pr => exceptOk (env.fetchDetails pr.repository pr.number)),
           db.countP
            (fun pr => !exceptOk (env.fetchDetails pr.repository pr.number))) :=
        Except.ok.inj h1
      subst hcounts
      rfl
    | error e => exact absurd h1 (by simp)
  · intro pr hpr
    rw [refresh_trace_eq]
    exact h.2 pr hpr

/-- Witness for C2's amended statement: `prA` refreshes, `prB`'s
re-fetch fails, the run still completes and both fetches are
attempted. -/
theorem C2_witness :
    (refresh_existing_pull_requests mixedEnv [prA, prB] 0).1 =
      Except.ok
        ⟨[prA, prB].length,
         [prA, prB].countP
          (fun pr => exceptOk (mixedEnv.fetchDetails pr.repository pr.number)),
         [prA, prB].countP
          (fun pr =>
            !exceptOk (mixedEnv.fetchDetails pr.repository pr.number))⟩ ∧
    ∀ pr ∈ [prA, prB], Call.fetchDetails pr.repository pr.number ∈
      (refresh_existing_pull_requests mixedEnv [prA, prB] 0).2 :=
  C2_fetch_failures_isolated mixedEnv 0 [prA, prB] (fun _ => rfl)

/-- C8: during quick refresh (with the remote echoing each record's
number and persistence succeeding), no record is ever deleted; every
record saved is the re-assembly of a persisted record, keyed by that
record's (repository, number), with `last_acknowledged_at` carried over
from the persisted record and `last_ci_status_update_at` set to `now`
exactly when the re-fetched ci_status differs; and every successfully
re-fetched record is indeed saved, equal to the fresh assembly except
for those two restored fields. -/
theorem C8_quick_refresh_upsert (env : RefreshEnv) (now : Time)
    (db : List PullRequest)
    (hsave : ∀ q, env.savePr q = Except.ok ())
    (hnum : ∀ pr ∈ db, ∀ d ci,
      env.fetchDetails pr.repository pr.number = Except.ok (d, ci) →
      d.number = pr.number) :
    (∀ c ∈ (refresh_existing_pull_requests env db now).2, ∀ repo n,
      c ≠ Call.deletePr repo n) ∧
    (∀ q, Call.savePr q ∈ (refresh_existing_pull_requests env db now).2 →
      ∃ pr ∈ db, q.repository = pr.repository ∧ q.number = pr.number ∧
        q.last_acknowledged_at = pr.last_acknowledged_at ∧
        q.last_ci_status_update_at =
          (if pr.ci_status ≠ q.ci_status then now
           else pr.last_ci_status_update_at)) ∧
    (∀ pr ∈ db, ∀ d ci,
      env.fetchDetails pr.repository pr.number = Except.ok (d, ci) →
      Call.savePr
        { fetch_pull_request_details pr.repository d ci with
          last_acknowledged_at := pr.last_acknowledged_at
          last_ci_status_update_at :=
            if pr.ci_status ≠
                (fetch_pull_request_details pr.repository d ci).ci_status
            then now else pr.last_ci_status_update_at } ∈
        (refresh_existing_pull_requests env db now).2) := by
  refine ⟨?_, ?_, ?_⟩
  · intro c hc repo n
    rw [refresh_trace_eq] at hc
    rcases refreshLoop_trace_shape env now db c hc with
      ⟨pr, hpr, h⟩ | ⟨pr, hpr, d, ci, h1, h2⟩
    · subst h
      simp
    · subst h2
      simp
  · intro q hq
    rw [refresh_trace_eq] at hq
    rcases refreshLoop_trace_shape env now db _ hq with
      ⟨pr, hpr, h⟩ | ⟨pr, hpr, d, ci, h1, h2⟩
    · exact absurd h (by simp)
    · have hqr : q = refreshed_record pr d ci now := Call.savePr.inj h2
      subst hqr
      exact ⟨pr, hpr, rfl, hnum pr hpr d ci h1, rfl, rfl⟩
  · intro pr hpr d ci hfetch
    rw [refresh_trace_eq]
    exact refreshLoop_save_mem env now hsave db pr hpr d ci hfetch

/-- Witness for C8 at a single persisted record with a successful
re-fetch. -/
theorem C8_witness :
    (∀ c ∈ (refresh_existing_pull_requests okEnv [prA] 0).2, ∀ repo n,
      c ≠ Call.deletePr repo n) ∧
    (∀ q, Call.savePr q ∈ (refresh_existing_pull_requests okEnv [prA] 0).2 →
      ∃ pr ∈ [prA], q.repository = pr.repository ∧ q.number = pr.number ∧
        q.last_acknowledged_at = pr.last_acknowledged_at ∧
        q.last_ci_status_update_at =
          (if pr.ci_status ≠ q.ci_status then 0
           else pr.last_ci_status_update_at)) ∧
    (∀ pr ∈ [prA], ∀ d ci,
      okEnv.fetchDetails pr.repository pr.number = Except.ok (d, ci) →
      Call.savePr
        { fetch_pull_request_details pr.repository d ci with
          last_acknowledged_at := pr.last_acknowledged_at
          last_ci_status_update_at :=
            if pr.ci_status ≠
                (fetch_pull_request_details pr.repository d ci).ci_status
            then 0 else pr.last_ci_status_update_at } ∈
        (refresh_existing_pull_requests okEnv [prA] 0).2) :=
  C8_quick_refresh_upsert okEnv 0 [prA] (fun _ => rfl)
    (by
      intro pr hpr d ci h
      injection h with h2
      have hd : d = detailsA := (congrArg Prod.fst h2).symm
      rcases List.mem_singleton.mp hpr with rfl
      rw [hd]
      decide)

/-- C10: every record saved back by quick refresh has `last_commit_at`
equal to the Unix epoch, whatever the prior value and the re-fetched
data were: the detail-fetch constructor hard-codes the epoch and the
refresh loop restores only `last_acknowledged_at` and
`last_ci_status_update_at`. -/
theorem C10_last_commit_epoch (env : RefreshEnv) (now : Time)
    (db : List PullRequest) (q : PullRequest)
    (hq : Call.savePr q ∈ (refresh_existing_pull_requests env db now).2) :
    q.last_commit_at = unixEpoch := by
  rw [refresh_trace_eq] at hq
  rcases refreshLoop_trace_shape env now db _ hq with
    ⟨pr, hpr, h⟩ | ⟨pr, hpr, d, ci, h1, h2⟩
  · exact absurd h (by simp)
  · have hqr : q = refreshed_record pr d ci now := Call.savePr.inj h2
    subst hqr
    rfl

/-- Witness for C10: a concrete saved record carries the epoch
`last_commit_at` even though the prior record's value was nonzero. -/
theorem C10_witness :
    Call.savePr (refreshed_record { prA with last_commit_at := 42 }
        detailsA ciEmpty 0) ∈
      (refresh_existing_pull_requests okEnv
        [{ prA with last_commit_at := 42 }] 0).2 ∧
    (refreshed_record { prA with last_commit_at := 42 }
        detailsA ciEmpty 0).last_commit_at = unixEpoch :=
  ⟨by decide,
   C10_last_commit_epoch okEnv 0 [{ prA with last_commit_at := 42 }] _
     (by decide)⟩

/-- Witness for C4: identical prior and fresh record — no output list
carries its key. -/
theorem C4_witness :
    (∀ r ∈ (process_pull_request_sync_results [prA] [prA] 9).new_prs,
      pull_request_key r ≠ pull_request_key prA) ∧
    (∀ r ∈ (process_pull_request_sync_results [prA] [prA] 9).updated_prs,
      pull_request_key r ≠ pull_request_key prA) ∧
    (∀ r ∈ (process_pull_request_sync_results [prA] [prA] 9).removed_prs,
      pull_request_key r ≠ pull_request_key prA) :=
  C4_unchanged_emits_nothing [prA] [prA] 9 prA prA (by decide) (by decide)
    (by decide) (by decide) (by decide) (by decide) (by decide) (by decide)
